import Mathlib

/-!
Verification of the speechbrain recipe repository: a shallow embedding of the
recipe code (SLU multistage recipe, ASR CharTokens template, SimpleTokenizer,
LJSpeech data preparation) together with theorems settling claims about it.

Python strings are embedded as `List Char`, Python ints as `ℕ`/`ℤ`, Python
floats appearing in exact arithmetic contexts as `ℚ`, and code that can raise
an exception (`KeyError`) as `Option`-valued functions.  Tensor computations
supplied by the external deep-learning framework (model forward passes,
autograd, optimizer mathematics, edit-distance scoring) are abstract
parameters of the embedding.  Framework orchestration code that belongs to
the repository but is not among the given source files (the `Brain` stage
loop, `ErrorRateStats`, the checkpointer) is modelled from the spec where a
definition is explicitly marked so.
-/

/-- The three stages of the Brain lifecycle (`sb.Stage`). -/
inductive Stage
  | TRAIN
  | VALID
  | TEST
deriving DecidableEq

/-- Average of a list of rationals; models the stage-loss averaging the
training controller performs over the batches of a stage ("accumulates
loss", docstring of `on_stage_end`: "The average loss for all of the data
processed in this stage"). -/
def avg (l : List ℚ) : ℚ := l.sum / l.length

namespace SimpleTokenizer

/-! Embedding of `src/speechbrain/tokenizers/SimpleTokenizer.py`. -/

/-- Python `string.ascii_lowercase` as a list of characters. -/
def ascii_lowercase : List Char :=
  ['a', 'b', 'c', 'd', 'e', 'f', 'g', 'h', 'i', 'j', 'k', 'l', 'm',
   'n', 'o', 'p', 'q', 'r', 's', 't', 'u', 'v', 'w', 'x', 'y', 'z']

/-- The tokenizer vocabulary: `['-', '|'] + string.ascii_lowercase`. -/
def vocab : List Char := ['-', '|'] ++ ascii_lowercase

/-- Index of the first occurrence of `c` in a list, or `none` when absent.
With a duplicate-free list this is exactly the Python dict
`sym2id = {s: i for i, s in enumerate(vocab)}` lookup. -/
def indexInVocab (c : Char) : List Char → Option ℕ
  | [] => none
  | v :: vs => if v = c then some 0 else (indexInVocab c vs).map (· + 1)

/-- The `sym2id` dict lookup; `none` models a Python `KeyError`. -/
def sym2id (c : Char) : Option ℕ := indexInVocab c vocab

/-- The `id2sym` dict lookup (`{i: s for i, s in enumerate(vocab)}`);
`none` models a Python `KeyError`. -/
def id2sym (i : ℕ) : Option Char := vocab[i]?

/-- The comprehension `[self.sym2id[s] for s in text]`: an unknown character
raises (returns `none`). -/
def encode_as_ids : List Char → Option (List ℕ)
  | [] => some []
  | c :: cs =>
    match sym2id c, encode_as_ids cs with
    | some i, some is => some (i :: is)
    | _, _ => none

/-- The comprehension `''.join([self.id2sym[i] for i in ids])`: an unknown id
raises (returns `none`). -/
def decode_ids : List ℕ → Option (List Char)
  | [] => some []
  | i :: is =>
    match id2sym i, decode_ids is with
    | some c, some cs => some (c :: cs)
    | _, _ => none

end SimpleTokenizer

namespace LJSpeech

/-! Embedding of the split computation of `prepare_ljspeech` in
`src/templates/speech_recognition_CharTokens_NoLM/Tokenizer/ljspeech_prepare.py`
(lines 95-109).  The percentages are embedded as exact rationals. -/

/-- The comprehension
`[wav_p for wav_p in wav_list if get_uttid(wav_p) not in uttids_to_excl]`,
with the utterance-id extraction abstracted as `uttid`. -/
def filter_excluded {α β : Type} [DecidableEq β] (uttid : α → β)
    (uttids_to_excl : List β) (wav_list : List α) : List α :=
  wav_list.filter (fun w => decide (uttid w ∉ uttids_to_excl))

/-- `valid_n = math.floor(valid_percent * filtered_n)`. -/
def valid_n (valid_percent : ℚ) (filtered_n : ℕ) : ℤ :=
  ⌊valid_percent * filtered_n⌋

/-- `test_n = math.floor(test_percent * filtered_n)`. -/
def test_n (test_percent : ℚ) (filtered_n : ℕ) : ℤ :=
  ⌊test_percent * filtered_n⌋

/-- `train_n = filtered_n - (valid_n + test_n)`. -/
def train_n (valid_percent test_percent : ℚ) (filtered_n : ℕ) : ℤ :=
  filtered_n - (valid_n valid_percent filtered_n + test_n test_percent filtered_n)

/-- `wav_list_train = wav_list[:train_n]` (for nonnegative `train_n`). -/
def wav_list_train {α : Type} (vp tp : ℚ) (wav_list : List α) : List α :=
  wav_list.take (train_n vp tp wav_list.length).toNat

/-- `wav_list_valid = wav_list[train_n:train_n + valid_n]`. -/
def wav_list_valid {α : Type} (vp tp : ℚ) (wav_list : List α) : List α :=
  (wav_list.drop (train_n vp tp wav_list.length).toNat).take
    (valid_n vp wav_list.length).toNat

/-- `wav_list_test = wav_list[train_n + valid_n:]`. -/
def wav_list_test {α : Type} (vp tp : ℚ) (wav_list : List α) : List α :=
  wav_list.drop
    ((train_n vp tp wav_list.length).toNat + (valid_n vp wav_list.length).toNat)

end LJSpeech

namespace ASR

/-! Embedding of the `ASR` Brain subclass of
`src/templates/speech_recognition_CharTokens_NoLM/ASR/train.py`. -/

/-- Symbolic waveform/feature values, used to record in which order the
pipeline stages of `ASR.prepare_features` are applied to a signal.
`read_audio` is the signal produced by the audio pipeline
(`sig = sb.dataio.dataio.read_audio(wav_path)`). -/
inductive Expr
  | read_audio
  | envCorrupt (e : Expr)
  | cat (a b : Expr)
  | augment (e : Expr)
  | compute_features (e : Expr)
  | normalize (e : Expr)
deriving DecidableEq

/-- `ASR.prepare_features` (train.py lines 150-187): during TRAIN, the batch
is optionally environment-corrupted and concatenated with itself, then
optionally waveform-augmented; afterwards `compute_features` and
`normalize` run on the (possibly augmented) waveforms.  The presence of the
optional `env_corrupt` / `augmentation` modules is a pair of flags. -/
def prepare_features (stage : Stage) (hasEnvCorrupt hasAugmentation : Bool)
    (wavs : Expr) : Expr :=
  let wavs :=
    if stage = Stage.TRAIN then
      let w := if hasEnvCorrupt then Expr.cat wavs (Expr.envCorrupt wavs) else wavs
      if hasAugmentation then Expr.augment w else w
    else wavs
  Expr.normalize (Expr.compute_features wavs)

/-- The key of `stage_stats` selected by `hparams["metric_to_optimize"]`.
`stage_stats` holds exactly the keys "loss", "CER" and "WER" when the lookup
happens (a different configured string would be a Python `KeyError`). -/
inductive MetricKey
  | loss
  | cer
  | wer
deriving DecidableEq

/-- Per-utterance word sequences (`predicted_words` / `target_words`). -/
abbrev Words := List (List Char)

/-- One record appended to an error-rate accumulator:
`append(batch.id, predicted_words, target_words)`. -/
structure Rec where
  ids : ℕ
  pred : Words
  targ : Words
deriving DecidableEq

/-- The `stage_stats` dict: `{"loss": ...}` always, with `"CER"`/`"WER"`
added for non-TRAIN stages. -/
structure StageStats where
  loss : ℚ
  cer : Option ℚ
  wer : Option ℚ
deriving DecidableEq

/-- External collaborators of the ASR Brain class, held abstract: the batch
loss and decoded/reference words for a batch come from the tensor engine;
`summarizeWER`/`summarizeCER` and `lr_annealing` belong to the framework.

Modelled from the spec: "Metric aggregators (word/character error rate
accumulators): accumulate per-utterance edit-distance-based statistics
across a stage and summarize into a scalar" — each `ErrorRateStats` object
is its list of appended records, and `summarize` is an abstract function
from the summary key and the accumulated records to a scalar. -/
structure Ctx where
  lossOf : ℕ → ℚ
  predOf : ℕ → Words
  targOf : ℕ → Words
  summarizeWER : List Char → List Rec → ℚ
  summarizeCER : List Char → List Rec → ℚ
  lr_annealing : ℚ → ℚ × ℚ
  metric : MetricKey

/-- The summary key `"error_rate"` passed to `summarize`. -/
def error_rate : List Char :=
  ['e', 'r', 'r', 'o', 'r', '_', 'r', 'a', 't', 'e']

/-- The mutable attributes of the ASR Brain object the claims are about:
the two error-rate accumulators, the stored train statistics, and the
optimizer's learning rate (`update_learning_rate(self.optimizer, new_lr)`
sets the latter; the attribute is unset before the first assignment, hence
`Option` for `train_stats`). -/
structure State where
  wer_metric : List Rec
  cer_metric : List Rec
  train_stats : Option StageStats
  lr : ℚ

/-- Side effects of `on_stage_end` other than attribute updates: the
learning-rate annealing call, the optimizer learning-rate update, the two
logging calls, the checkpoint call and the WER-file dump.  `saveCkpt`
records the `meta` key/value and the `min_keys` argument of
`checkpointer.save_and_keep_only`. -/
inductive Action
  | anneal (v : ℚ)
  | updateLR (newLR : ℚ)
  | logValid (trainStats : Option StageStats) (validStats : StageStats)
  | logTest (testStats : StageStats)
  | saveCkpt (metaKey : MetricKey) (metaVal : ℚ) (minKeys : List MetricKey)
  | writeWER (recs : List Rec)

/-- `ASR.on_stage_start` (lines 282-298): for non-TRAIN stages, fresh
`cer_metric` and `wer_metric` accumulators are created. -/
def on_stage_start (s : State) (stage : Stage) : State :=
  if stage = Stage.TRAIN then s
  else { s with cer_metric := [], wer_metric := [] }

/-- The metric-bookkeeping part of `ASR.compute_objectives` (lines 251-268):
for non-TRAIN stages the decoded and reference words of the batch are
appended to both accumulators; during TRAIN nothing is appended. -/
def objectives_metrics (ctx : Ctx) (s : State) (stage : Stage) (b : ℕ) : State :=
  if stage = Stage.TRAIN then s
  else
    { s with
      wer_metric := s.wer_metric ++ [⟨b, ctx.predOf b, ctx.targOf b⟩],
      cer_metric := s.cer_metric ++ [⟨b, ctx.predOf b, ctx.targOf b⟩] }

/-- The dict lookup `stage_stats[self.hparams["metric_to_optimize"]]` on the
non-TRAIN `stage_stats` keys. -/
def statValue (metric : MetricKey) (stage_loss cerV werV : ℚ) : ℚ :=
  match metric with
  | MetricKey.loss => stage_loss
  | MetricKey.cer => cerV
  | MetricKey.wer => werV

/-- `ASR.on_stage_end` (lines 300-351).  TRAIN stores the stage statistics;
non-TRAIN stages summarize the accumulators; VALID anneals the learning
rate on `stage_stats[metric_to_optimize]`, updates the optimizer, logs and
checkpoints; TEST logs and writes the WER file. -/
def on_stage_end (ctx : Ctx) (s : State) (stage : Stage) (stage_loss : ℚ) :
    State × List Action :=
  if stage = Stage.TRAIN then
    ({ s with train_stats := some ⟨stage_loss, none, none⟩ }, [])
  else
    let cerV := ctx.summarizeCER error_rate s.cer_metric
    let werV := ctx.summarizeWER error_rate s.wer_metric
    let stats : StageStats := ⟨stage_loss, some cerV, some werV⟩
    if stage = Stage.VALID then
      let v := statValue ctx.metric stage_loss cerV werV
      let lrs := ctx.lr_annealing v
      ({ s with lr := lrs.2 },
       [Action.anneal v, Action.updateLR lrs.2,
        Action.logValid s.train_stats stats,
        Action.saveCkpt ctx.metric v [ctx.metric]])
    else
      (s, [Action.logTest stats, Action.writeWER s.wer_metric])

/-- The per-batch bookkeeping of one stage, folded over the stage's batches. -/
def accum (ctx : Ctx) (s : State) (stage : Stage) (batches : List ℕ) : State :=
  batches.foldl (fun st b => objectives_metrics ctx st stage b) s

/-- Modelled from the spec: the training controller "calls forward/objective
functions per batch, accumulates loss" and brackets each stage with the
stage hooks — one stage is `on_stage_start`, the per-batch objective
computations, then `on_stage_end` on the average stage loss. -/
def run_stage (ctx : Ctx) (s : State) (stage : Stage) (batches : List ℕ) :
    State × List Action :=
  on_stage_end ctx (accum ctx (on_stage_start s stage) stage batches) stage
    (avg (batches.map ctx.lossOf))

/-- The records a non-TRAIN stage appends for its batches, in order. -/
def stageRecords (ctx : Ctx) (batches : List ℕ) : List Rec :=
  batches.map (fun b => ⟨b, ctx.predOf b, ctx.targOf b⟩)

/-- The value of `stage_stats[metric_to_optimize]` at the end of a VALID
stage whose batches were `batches`. -/
def metricValue (ctx : Ctx) (batches : List ℕ) : ℚ :=
  statValue ctx.metric (avg (batches.map ctx.lossOf))
    (ctx.summarizeCER error_rate (stageRecords ctx batches))
    (ctx.summarizeWER error_rate (stageRecords ctx batches))

end ASR

namespace SLU

/-! Embedding of the `SLU` Brain subclass of
`src/recipes/timers-and-such/multistage/train/train.py`. -/

/-- The external collaborators of `SLU.fit_batch`, held abstract: the forward
pass, the objective computation, autograd (`loss.backward()` accumulates
into the gradients), the gradient check, the optimizer step, the zeroing of
gradients and loss detaching.  `B` batches, `P` predictions, `L` losses,
`G` gradient buffers, `W` parameters. -/
structure Sem (B P L G W : Type) where
  compute_forward : B → Stage → P
  compute_objectives : P → B → Stage → L
  backward : L → G → G
  check_gradients : L → Bool
  optimizer_step : G → W → W
  zero_grad : G → G
  detach : L → L

/-- The optimization state `fit_batch` mutates. -/
structure OptState (G W : Type) where
  grads : G
  params : W
  batch_count : ℕ

/-- Trace of the calls `fit_batch` makes, in order. -/
inductive Ev (B P L : Type)
  | forward (b : B) (stage : Stage)
  | objectives (p : P) (b : B) (stage : Stage)
  | backward (l : L)
  | optStep
  | zeroGrad

/-- `SLU.fit_batch` (train.py lines 148-157), with the trace of calls it
makes:
forward in the TRAIN stage, objectives on the resulting predictions,
`loss.backward()`, `optimizer.step()` under `check_gradients(loss)`,
`optimizer.zero_grad()`, `batch_count += 1`, return `loss.detach()`. -/
def fit_batch {B P L G W : Type} (sem : Sem B P L G W) (s : OptState G W)
    (batch : B) : OptState G W × L × List (Ev B P L) :=
  let predictions := sem.compute_forward batch Stage.TRAIN
  let loss := sem.compute_objectives predictions batch Stage.TRAIN
  let g := sem.backward loss s.grads
  let params :=
    if sem.check_gradients loss then sem.optimizer_step g s.params else s.params
  ({ grads := sem.zero_grad g, params := params,
     batch_count := s.batch_count + 1 },
   sem.detach loss,
   [Ev.forward batch Stage.TRAIN,
    Ev.objectives predictions batch Stage.TRAIN,
    Ev.backward loss] ++
     (if sem.check_gradients loss then [Ev.optStep] else []) ++ [Ev.zeroGrad])

/-- The padding block of `SLU.compute_forward` (lines 53-56):
`max_length = max(len(t) for t in asr_tokens)`, bumped to 1 when every
transcript is empty. -/
def max_length (asr_tokens : List (List ℕ)) : ℕ :=
  if (asr_tokens.map List.length).foldr max 0 = 0 then 1
  else (asr_tokens.map List.length).foldr max 0

/-- Lines 57-59: every sequence is padded with zeros up to `max_length`. -/
def pad_tokens (asr_tokens : List (List ℕ)) : List (List ℕ) :=
  asr_tokens.map
    (fun t => t ++ List.replicate (max_length asr_tokens - t.length) 0)

/-- Line 62: `[max(len(t), 1) for t in asr_tokens]` — NOTE the code computes
this after `asr_tokens` has been replaced by the padded tensor, so the
lengths it reads are the padded lengths. -/
def token_lens (asr_tokens : List (List ℕ)) : List ℕ :=
  (pad_tokens asr_tokens).map (fun t => max t.length 1)

/-- Lines 61-65: the relative-length tensor,
`asr_tokens_lens / asr_tokens_lens.max()` over the padded lengths. -/
def asr_tokens_lens (asr_tokens : List (List ℕ)) : List ℚ :=
  (token_lens asr_tokens).map
    (fun (x : ℕ) => (x : ℚ) / (((token_lens asr_tokens).foldr max 0 : ℕ) : ℚ))

/-- External collaborators of the SLU stage lifecycle, abstract like those
of `ASR.Ctx`; the recipe's monitored metric is fixed to WER.  The two
`summarize` functions are modelled from the spec (metric aggregators
summarizing accumulated records into a scalar). -/
structure Ctx where
  lossOf : ℕ → ℚ
  predOf : ℕ → ASR.Words
  targOf : ℕ → ASR.Words
  summarizeWER : List Char → List ASR.Rec → ℚ
  summarizeCER : List Char → List ASR.Rec → ℚ
  lr_annealing : ℚ → ℚ × ℚ

/-- Mutable attributes of the SLU Brain object used by the stage hooks. -/
structure State where
  wer_metric : List ASR.Rec
  cer_metric : List ASR.Rec
  train_stats : Option ASR.StageStats
  lr : ℚ
  batch_count : ℕ

/-- `SLU.on_stage_start` (lines 165-172): resets `batch_count`, and for
non-TRAIN stages creates fresh accumulators. -/
def on_stage_start (s : State) (stage : Stage) : State :=
  let s := { s with batch_count := 0 }
  if stage = Stage.TRAIN then s
  else { s with cer_metric := [], wer_metric := [] }

/-- The metric-bookkeeping part of `SLU.compute_objectives` (lines 122-144):
appends to the accumulators only when the stage is not TRAIN (the printing
every `show_results_every` TRAIN batches has no state effect). -/
def objectives_metrics (ctx : Ctx) (s : State) (stage : Stage) (b : ℕ) : State :=
  if stage = Stage.TRAIN then s
  else
    { s with
      wer_metric := s.wer_metric ++ [⟨b, ctx.predOf b, ctx.targOf b⟩],
      cer_metric := s.cer_metric ++ [⟨b, ctx.predOf b, ctx.targOf b⟩] }

/-- `SLU.on_stage_end` (lines 174-202): TRAIN stores the stage statistics;
VALID summarizes, anneals on `stage_stats["WER"]`, updates the optimizer,
logs and checkpoints with `meta={"WER": ...}, min_keys=["WER"]`; TEST logs
and writes the WER file. -/
def on_stage_end (ctx : Ctx) (s : State) (stage : Stage) (stage_loss : ℚ) :
    State × List ASR.Action :=
  if stage = Stage.TRAIN then
    ({ s with train_stats := some ⟨stage_loss, none, none⟩ }, [])
  else
    let cerV := ctx.summarizeCER ASR.error_rate s.cer_metric
    let werV := ctx.summarizeWER ASR.error_rate s.wer_metric
    let stats : ASR.StageStats := ⟨stage_loss, some cerV, some werV⟩
    if stage = Stage.VALID then
      let lrs := ctx.lr_annealing werV
      ({ s with lr := lrs.2 },
       [ASR.Action.anneal werV, ASR.Action.updateLR lrs.2,
        ASR.Action.logValid s.train_stats stats,
        ASR.Action.saveCkpt ASR.MetricKey.wer werV [ASR.MetricKey.wer]])
    else
      (s, [ASR.Action.logTest stats, ASR.Action.writeWER s.wer_metric])

/-- The per-batch bookkeeping of one stage, folded over the stage's batches. -/
def accum (ctx : Ctx) (s : State) (stage : Stage) (batches : List ℕ) : State :=
  batches.foldl (fun st b => objectives_metrics ctx st stage b) s

/-- Modelled from the spec: one stage of the training controller for the SLU
recipe, as for `ASR.run_stage`. -/
def run_stage (ctx : Ctx) (s : State) (stage : Stage) (batches : List ℕ) :
    State × List ASR.Action :=
  on_stage_end ctx (accum ctx (on_stage_start s stage) stage batches) stage
    (avg (batches.map ctx.lossOf))

/-- The records a non-TRAIN stage appends for its batches, in order. -/
def stageRecords (ctx : Ctx) (batches : List ℕ) : List ASR.Rec :=
  batches.map (fun b => ⟨b, ctx.predOf b, ctx.targOf b⟩)

/-- The WER scalar summarized at the end of a non-TRAIN stage whose batches
were `batches`. -/
def werValue (ctx : Ctx) (batches : List ℕ) : ℚ :=
  ctx.summarizeWER ASR.error_rate (stageRecords ctx batches)

end SLU

/-! ### Tokenizer lemmas -/

namespace SimpleTokenizer

theorem indexInVocab_isSome_of_mem {c : Char} {l : List Char} :
    c ∈ l → (indexInVocab c l).isSome := by
  induction l with
  | nil => intro h; simp at h
  | cons v vs ih =>
    intro h
    by_cases hv : v = c
    · simp [indexInVocab, hv]
    · rcases List.mem_cons.mp h with hc | hc
      · exact absurd hc.symm hv
      · simp only [indexInVocab, hv, if_false]
        have := ih hc
        cases hi : indexInVocab c vs with
        | none => rw [hi] at this; simp at this
        | some i => simp [hi]

theorem indexInVocab_eq_none_iff {c : Char} {l : List Char} :
    indexInVocab c l = none ↔ c ∉ l := by
  constructor
  · intro h hc
    have := indexInVocab_isSome_of_mem hc
    rw [h] at this
    simp at this
  · intro h
    induction l with
    | nil => rfl
    | cons v vs ih =>
      have hv : v ≠ c := fun hvc => h (hvc ▸ List.mem_cons_self v vs)
      have hm : c ∉ vs := fun hc => h (List.mem_cons_of_mem v hc)
      simp [indexInVocab, hv, ih hm]

theorem getElem?_of_indexInVocab {c : Char} {l : List Char} {i : ℕ}
    (h : indexInVocab c l = some i) : l[i]? = some c := by
  induction l generalizing i with
  | nil => simp [indexInVocab] at h
  | cons v vs ih =>
    by_cases hv : v = c
    · simp only [indexInVocab, hv, if_true, Option.some.injEq] at h
      subst h
      simp [hv]
    · simp only [indexInVocab, hv, if_false, Option.map_eq_some'] at h
      obtain ⟨j, hj, rfl⟩ := h
      simpa using ih hj

theorem indexInVocab_lt {c : Char} {l : List Char} {i : ℕ}
    (h : indexInVocab c l = some i) : i < l.length := by
  have := getElem?_of_indexInVocab h
  exact (List.getElem?_eq_some.mp this).1

/-- Inverting in the other direction is a finite check over the 28 ids. -/
theorem id2sym_then_sym2id : ∀ i < 28, (id2sym i).bind sym2id = some i := by
  decide

theorem vocab_length : vocab.length = 28 := by decide

theorem encode_all_mem {text : List Char} (h : ∀ c ∈ text, c ∈ vocab) :
    ∃ ids, encode_as_ids text = some ids ∧ (∀ i ∈ ids, i ≤ 27) ∧
      decode_ids ids = some text := by
  induction text with
  | nil => exact ⟨[], rfl, by simp, rfl⟩
  | cons c cs ih =>
    obtain ⟨ids, he, hb, hd⟩ := ih (fun x hx => h x (List.mem_cons_of_mem c hx))
    have hc : c ∈ vocab := h c (List.mem_cons_self c cs)
    have hs := indexInVocab_isSome_of_mem hc
    obtain ⟨i, hi⟩ := Option.isSome_iff_exists.mp hs
    have hlt : i < 28 := vocab_length ▸ indexInVocab_lt hi
    have hback : id2sym i = some c := getElem?_of_indexInVocab hi
    refine ⟨i :: ids, ?_, ?_, ?_⟩
    · simp [encode_as_ids, sym2id, hi, he]
    · intro j hj
      rcases List.mem_cons.mp hj with rfl | hj
      · omega
      · exact hb j hj
    · simp [decode_ids, hback, hd]

theorem decode_all_lt {ids : List ℕ} (h : ∀ i ∈ ids, i ≤ 27) :
    ∃ text, decode_ids ids = some text ∧ encode_as_ids text = some ids := by
  induction ids with
  | nil => exact ⟨[], rfl, rfl⟩
  | cons i is ih =>
    obtain ⟨text, hd, he⟩ := ih (fun x hx => h x (List.mem_cons_of_mem i hx))
    have hlt : i < 28 := by
      have := h i (List.mem_cons_self i is)
      omega
    have hround := id2sym_then_sym2id i hlt
    cases hc : id2sym i with
    | none => rw [hc] at hround; simp at hround
    | some c =>
      rw [hc] at hround
      simp only [Option.some_bind] at hround
      exact ⟨c :: text, by simp [decode_ids, hc, hd],
        by simp [encode_as_ids, hround, he]⟩

theorem encode_eq_none_iff {text : List Char} :
    encode_as_ids text = none ↔ ∃ c ∈ text, c ∉ vocab := by
  induction text with
  | nil => simp [encode_as_ids]
  | cons c cs ih =>
    cases hs : sym2id c with
    | none =>
      have : c ∉ vocab := indexInVocab_eq_none_iff.mp hs
      simp only [encode_as_ids, hs]
      constructor
      · intro _; exact ⟨c, List.mem_cons_self c cs, this⟩
      · intro _; trivial
    | some i =>
      have hcv : c ∈ vocab := by
        by_contra hcv
        have h2 : sym2id c = none := indexInVocab_eq_none_iff.mpr hcv
        rw [h2] at hs
        exact Option.noConfusion hs
      cases he : encode_as_ids cs with
      | none =>
        simp only [encode_as_ids, hs, he]
        constructor
        · intro _
          obtain ⟨x, hx, hxv⟩ := ih.mp he
          exact ⟨x, List.mem_cons_of_mem c hx, hxv⟩
        · intro _; trivial
      | some is =>
        simp only [encode_as_ids, hs, he]
        constructor
        · intro hcontra; exact Option.noConfusion hcontra
        · rintro ⟨x, hx, hxv⟩
          rcases List.mem_cons.mp hx with rfl | hx
          · exact absurd hcv hxv
          · have : encode_as_ids cs = none := ih.mpr ⟨x, hx, hxv⟩
            rw [he] at this
            exact Option.noConfusion this

theorem decode_eq_none_iff {ids : List ℕ} :
    decode_ids ids = none ↔ ∃ i ∈ ids, 27 < i := by
  induction ids with
  | nil => simp [decode_ids]
  | cons i is ih =>
    have hkey : id2sym i = none ↔ 27 < i := by
      constructor
      · intro h
        by_contra hlt
        have h28 : i < 28 := by omega
        have := id2sym_then_sym2id i h28
        rw [h] at this
        simp at this
      · intro h
        have : vocab.length ≤ i := by rw [vocab_length]; omega
        exact List.getElem?_eq_none this
    cases hc : id2sym i with
    | none =>
      simp only [decode_ids, hc]
      exact ⟨fun _ => ⟨i, List.mem_cons_self i is, hkey.mp hc⟩, fun _ => trivial⟩
    | some c =>
      have hile : ¬ 27 < i := fun hgt => by
        rw [hkey.mpr hgt] at hc
        exact Option.noConfusion hc
      cases hd : decode_ids is with
      | none =>
        simp only [decode_ids, hc, hd]
        constructor
        · intro _
          obtain ⟨x, hx, hxv⟩ := ih.mp hd
          exact ⟨x, List.mem_cons_of_mem i hx, hxv⟩
        · intro _; trivial
      | some cs =>
        simp only [decode_ids, hc, hd]
        constructor
        · intro hcontra; exact Option.noConfusion hcontra
        · rintro ⟨x, hx, hxv⟩
          rcases List.mem_cons.mp hx with rfl | hx
          · exact absurd hxv hile
          · have : decode_ids is = none := ih.mpr ⟨x, hx, hxv⟩
            rw [hd] at this
            exact Option.noConfusion this

end SimpleTokenizer

/-! ### Claim C6 and C8 theorems -/

/-- C6: for every string whose characters all belong to SimpleTokenizer's
28-symbol vocabulary, `decode_ids (encode_as_ids text) = text` and every
produced id lies in 0..27; conversely, for every list of ids in 0..27,
`encode_as_ids (decode_ids ids) = ids`. -/
theorem simpletokenizer_roundtrip :
    (∀ text : List Char, (∀ c ∈ text, c ∈ SimpleTokenizer.vocab) →
      ∃ ids, SimpleTokenizer.encode_as_ids text = some ids ∧
        (∀ i ∈ ids, i ≤ 27) ∧ SimpleTokenizer.decode_ids ids = some text) ∧
    (∀ ids : List ℕ, (∀ i ∈ ids, i ≤ 27) →
      ∃ text, SimpleTokenizer.decode_ids ids = some text ∧
        SimpleTokenizer.encode_as_ids text = some ids) :=
  ⟨fun _ h => SimpleTokenizer.encode_all_mem h,
   fun _ h => SimpleTokenizer.decode_all_lt h⟩

/-- Witness for C6 at the concrete text "ab-z|" and the id list [0, 27, 1]. -/
theorem simpletokenizer_roundtrip_witness :
    (∃ ids, SimpleTokenizer.encode_as_ids ['a', 'b', '-', 'z', '|'] = some ids ∧
      (∀ i ∈ ids, i ≤ 27) ∧
      SimpleTokenizer.decode_ids ids = some ['a', 'b', '-', 'z', '|']) ∧
    (∃ text, SimpleTokenizer.decode_ids [0, 27, 1] = some text ∧
      SimpleTokenizer.encode_as_ids text = some [0, 27, 1]) :=
  ⟨simpletokenizer_roundtrip.1 ['a', 'b', '-', 'z', '|'] (by decide),
   simpletokenizer_roundtrip.2 [0, 27, 1] (by decide)⟩

/-- C8: `encode_as_ids` raises a KeyError (returns `none`) iff the text has a
character outside the 28-symbol vocabulary — in particular the space
(char 32), every uppercase letter (chars 65-90), every digit (chars 48-57)
and punctuation such as the comma (char 44) and the period (char 46) are
outside the vocabulary — and `decode_ids` raises iff some id exceeds 27. -/
theorem simpletokenizer_keyerror :
    (∀ text : List Char,
      SimpleTokenizer.encode_as_ids text = none ↔
        ∃ c ∈ text, c ∉ SimpleTokenizer.vocab) ∧
    ((List.range 26).all
      (fun k => !(SimpleTokenizer.vocab.contains (Char.ofNat (65 + k)))) = true) ∧
    ((List.range 10).all
      (fun k => !(SimpleTokenizer.vocab.contains (Char.ofNat (48 + k)))) = true) ∧
    SimpleTokenizer.vocab.contains (Char.ofNat 32) = false ∧
    SimpleTokenizer.vocab.contains (Char.ofNat 44) = false ∧
    SimpleTokenizer.vocab.contains (Char.ofNat 46) = false ∧
    (∀ ids : List ℕ,
      SimpleTokenizer.decode_ids ids = none ↔ ∃ i ∈ ids, 27 < i) :=
  ⟨fun _ => SimpleTokenizer.encode_eq_none_iff, by decide, by decide, by decide,
   by decide, by decide, fun _ => SimpleTokenizer.decode_eq_none_iff⟩

/-! ### LJSpeech split lemmas and claim C9 -/

namespace LJSpeech

theorem valid_n_nonneg {vp : ℚ} (n : ℕ) (h : 0 ≤ vp) : 0 ≤ valid_n vp n :=
  Int.floor_nonneg.mpr (mul_nonneg h (Nat.cast_nonneg n))

theorem test_n_nonneg {tp : ℚ} (n : ℕ) (h : 0 ≤ tp) : 0 ≤ test_n tp n :=
  Int.floor_nonneg.mpr (mul_nonneg h (Nat.cast_nonneg n))

theorem valid_add_test_le {vp tp : ℚ} (n : ℕ)
    (h3 : vp + tp ≤ 1) : valid_n vp n + test_n tp n ≤ (n : ℤ) := by
  have hq : ((valid_n vp n : ℤ) : ℚ) + ((test_n tp n : ℤ) : ℚ) ≤ vp * n + tp * n :=
    add_le_add (Int.floor_le _) (Int.floor_le _)
  have hn : vp * n + tp * n ≤ (n : ℚ) := by
    have := mul_le_mul_of_nonneg_right h3 (Nat.cast_nonneg (α := ℚ) n)
    calc vp * n + tp * n = (vp + tp) * n := by ring
    _ ≤ 1 * n := this
    _ = (n : ℚ) := one_mul _
  exact_mod_cast hq.trans hn

end LJSpeech

/-- C9: in `prepare_ljspeech`, after excluding the listed utterance ids, the
valid split has exactly `floor(valid_percent * n)` elements, the test split
exactly `floor(test_percent * n)` elements, the train split the remaining
`n - floor(valid_percent * n) - floor(test_percent * n)` elements, and the
three splits are consecutive slices whose concatenation is the filtered
list, so their sizes sum to `n`, whenever the two percentages are
nonnegative and sum to at most 1. -/
theorem ljspeech_split_sizes {α β : Type} [DecidableEq β] (uttid : α → β)
    (uttids_to_excl : List β) (wav_list : List α) (vp tp : ℚ) (l : List α)
    (hl : l = LJSpeech.filter_excluded uttid uttids_to_excl wav_list)
    (h1 : 0 ≤ vp) (h2 : 0 ≤ tp) (h3 : vp + tp ≤ 1) :
    ((LJSpeech.wav_list_valid vp tp l).length : ℤ) =
      LJSpeech.valid_n vp l.length ∧
    ((LJSpeech.wav_list_test vp tp l).length : ℤ) =
      LJSpeech.test_n tp l.length ∧
    ((LJSpeech.wav_list_train vp tp l).length : ℤ) =
      (l.length : ℤ) -
        (LJSpeech.valid_n vp l.length + LJSpeech.test_n tp l.length) ∧
    LJSpeech.wav_list_train vp tp l ++ LJSpeech.wav_list_valid vp tp l ++
      LJSpeech.wav_list_test vp tp l = l ∧
    (LJSpeech.wav_list_train vp tp l).length +
      (LJSpeech.wav_list_valid vp tp l).length +
      (LJSpeech.wav_list_test vp tp l).length = l.length := by
  clear hl
  set n := l.length with hn
  have hva : 0 ≤ LJSpeech.valid_n vp n := LJSpeech.valid_n_nonneg n h1
  have htb : 0 ≤ LJSpeech.test_n tp n := LJSpeech.test_n_nonneg n h2
  have hsum : LJSpeech.valid_n vp n + LJSpeech.test_n tp n ≤ (n : ℤ) :=
    LJSpeech.valid_add_test_le n h3
  have htr : LJSpeech.train_n vp tp n =
      (n : ℤ) - (LJSpeech.valid_n vp n + LJSpeech.test_n tp n) := rfl
  have hna : ((LJSpeech.valid_n vp n).toNat : ℤ) = LJSpeech.valid_n vp n :=
    Int.toNat_of_nonneg hva
  have hnb : ((LJSpeech.test_n tp n).toNat : ℤ) = LJSpeech.test_n tp n :=
    Int.toNat_of_nonneg htb
  have hnt : ((LJSpeech.train_n vp tp n).toNat : ℤ) =
      (n : ℤ) - (LJSpeech.valid_n vp n + LJSpeech.test_n tp n) := by
    rw [Int.toNat_of_nonneg (by omega), htr]
  set a := (LJSpeech.valid_n vp n).toNat with ha
  set b := (LJSpeech.test_n tp n).toNat with hb
  set t := (LJSpeech.train_n vp tp n).toNat with ht
  have habn : a + b ≤ n := by omega
  have htn : t = n - (a + b) := by omega
  have hlen_train : (LJSpeech.wav_list_train vp tp l).length = t := by
    simp only [LJSpeech.wav_list_train, List.length_take, ← hn, ← ht]
    omega
  have hlen_valid : (LJSpeech.wav_list_valid vp tp l).length = a := by
    simp only [LJSpeech.wav_list_valid, List.length_take, List.length_drop,
      ← hn, ← ht, ← ha]
    omega
  have hlen_test : (LJSpeech.wav_list_test vp tp l).length = b := by
    simp only [LJSpeech.wav_list_test, List.length_drop, ← hn, ← ht, ← ha]
    omega
  refine ⟨by rw [hlen_valid, hna], by rw [hlen_test, hnb], ?_, ?_, ?_⟩
  · rw [hlen_train]; omega
  · have hdd : LJSpeech.wav_list_test vp tp l = (l.drop t).drop a := by
      simp only [LJSpeech.wav_list_test, List.drop_drop, ← ht, ← ha]
    have htr2 : LJSpeech.wav_list_train vp tp l = l.take t := by
      simp only [LJSpeech.wav_list_train, ← hn, ← ht]
    have hva2 : LJSpeech.wav_list_valid vp tp l = (l.drop t).take a := by
      simp only [LJSpeech.wav_list_valid, ← hn, ← ht, ← ha]
    rw [htr2, hva2, hdd, List.append_assoc, List.take_append_drop,
      List.take_append_drop]
  · rw [hlen_train, hlen_valid, hlen_test]; omega

/-- Witness for C9: six wav files, one excluded, valid 20%, test 40%. -/
theorem ljspeech_split_sizes_witness :
    ((LJSpeech.wav_list_valid (1/5) (2/5) [0, 1, 2, 3, 4]).length : ℤ) =
      LJSpeech.valid_n (1/5) 5 ∧
    ((LJSpeech.wav_list_test (1/5) (2/5) [0, 1, 2, 3, 4]).length : ℤ) =
      LJSpeech.test_n (2/5) 5 ∧
    ((LJSpeech.wav_list_train (1/5) (2/5) [0, 1, 2, 3, 4]).length : ℤ) =
      (5 : ℤ) - (LJSpeech.valid_n (1/5) 5 + LJSpeech.test_n (2/5) 5) ∧
    LJSpeech.wav_list_train (1/5) (2/5) [0, 1, 2, 3, 4] ++
      LJSpeech.wav_list_valid (1/5) (2/5) [0, 1, 2, 3, 4] ++
      LJSpeech.wav_list_test (1/5) (2/5) [0, 1, 2, 3, 4] = [0, 1, 2, 3, 4] ∧
    (LJSpeech.wav_list_train (1/5) (2/5) [0, 1, 2, 3, 4]).length +
      (LJSpeech.wav_list_valid (1/5) (2/5) [0, 1, 2, 3, 4]).length +
      (LJSpeech.wav_list_test (1/5) (2/5) [0, 1, 2, 3, 4]).length = 5 := by
  have h := ljspeech_split_sizes (fun x : ℕ => x) [5] [0, 1, 2, 3, 4, 5]
    (1/5) (2/5) [0, 1, 2, 3, 4] (by decide) (by norm_num) (by norm_num)
    (by norm_num)
  simpa using h

/-! ### Claim C1: SLU.fit_batch -/

/-- C1: for every training batch, `SLU.fit_batch` first calls
`compute_forward` on the batch in the TRAIN stage, then `compute_objectives`
on the resulting predictions, performs backpropagation, applies the
optimizer step exactly when `check_gradients(loss)` returns true, always
zeroes the gradients afterwards, increments `batch_count` by exactly one,
and returns the detached loss. -/
theorem slu_fit_batch_spec {B P L G W : Type} (sem : SLU.Sem B P L G W)
    (s : SLU.OptState G W) (batch : B) :
    (SLU.fit_batch sem s batch).2.2 =
      [SLU.Ev.forward batch Stage.TRAIN,
       SLU.Ev.objectives (sem.compute_forward batch Stage.TRAIN) batch
         Stage.TRAIN,
       SLU.Ev.backward (sem.compute_objectives
         (sem.compute_forward batch Stage.TRAIN) batch Stage.TRAIN)] ++
      (if sem.check_gradients (sem.compute_objectives
          (sem.compute_forward batch Stage.TRAIN) batch Stage.TRAIN)
        then [SLU.Ev.optStep] else []) ++ [SLU.Ev.zeroGrad] ∧
    (SLU.Ev.optStep ∈ (SLU.fit_batch sem s batch).2.2 ↔
      sem.check_gradients (sem.compute_objectives
        (sem.compute_forward batch Stage.TRAIN) batch Stage.TRAIN) = true) ∧
    (SLU.fit_batch sem s batch).1.params =
      (if sem.check_gradients (sem.compute_objectives
          (sem.compute_forward batch Stage.TRAIN) batch Stage.TRAIN)
        then sem.optimizer_step
          (sem.backward (sem.compute_objectives
            (sem.compute_forward batch Stage.TRAIN) batch Stage.TRAIN) s.grads)
          s.params
        else s.params) ∧
    (SLU.fit_batch sem s batch).1.grads =
      sem.zero_grad (sem.backward (sem.compute_objectives
        (sem.compute_forward batch Stage.TRAIN) batch Stage.TRAIN) s.grads) ∧
    (SLU.fit_batch sem s batch).1.batch_count = s.batch_count + 1 ∧
    (SLU.fit_batch sem s batch).2.1 =
      sem.detach (sem.compute_objectives
        (sem.compute_forward batch Stage.TRAIN) batch Stage.TRAIN) := by
  refine ⟨rfl, ?_, rfl, rfl, rfl, rfl⟩
  cases h : sem.check_gradients (sem.compute_objectives
      (sem.compute_forward batch Stage.TRAIN) batch Stage.TRAIN) <;>
    simp [SLU.fit_batch, h]

/-! ### Claim C2: pipeline order -/

/-- C2 counterexample: the claim states the per-example pipeline applies
feature extraction before augmentation; but for a TRAIN example with
waveform augmentation configured (`env_corrupt` absent), the features are
NOT the claimed `augment (normalize (compute_features sig))`. -/
theorem pipeline_order_counterexample :
    ASR.prepare_features Stage.TRAIN false true ASR.Expr.read_audio ≠
      ASR.Expr.augment (ASR.Expr.normalize
        (ASR.Expr.compute_features ASR.Expr.read_audio)) := by
  decide

/-- C2 amended: the pipeline applies audio load, then (during TRAIN)
augmentation of the waveform — after the optional environment corruption —
then feature extraction and normalization; tokenization of the transcript
happens in the separate text pipeline.  In particular feature extraction
always receives the already-augmented waveform. -/
theorem pipeline_order_amended (hasEnvCorrupt : Bool) (w : ASR.Expr) :
    ∃ u, ASR.prepare_features Stage.TRAIN hasEnvCorrupt true w =
      ASR.Expr.normalize (ASR.Expr.compute_features (ASR.Expr.augment u)) ∧
      (u = w ∨ u = ASR.Expr.cat w (ASR.Expr.envCorrupt w)) := by
  cases hasEnvCorrupt
  · exact ⟨w, rfl, Or.inl rfl⟩
  · exact ⟨ASR.Expr.cat w (ASR.Expr.envCorrupt w), rfl, Or.inr rfl⟩

/-! ### Claim C7: SLU.compute_forward padding -/

namespace SLU

theorem mem_le_foldr_max {x : ℕ} {l : List ℕ} (h : x ∈ l) :
    x ≤ l.foldr max 0 := by
  induction l with
  | nil => simp at h
  | cons a as ih =>
    rcases List.mem_cons.mp h with rfl | h
    · exact Nat.le_max_left _ _
    · exact (ih h).trans (Nat.le_max_right _ _)

theorem foldr_max_replicate (n L : ℕ) :
    (List.replicate n L).foldr max 0 = if n = 0 then 0 else L := by
  induction n with
  | zero => simp
  | succ m ih =>
    rw [List.replicate_succ, List.foldr_cons, ih]
    by_cases hm : m = 0 <;> simp [hm]

end SLU

/-- C7: in `SLU.compute_forward`, the ASR token sequences are zero-padded so
that afterwards every sequence has the same length `max_length`, which is at
least 1 even when every transcript is empty; the relative-length tensor
(computed from the padded rows, hence all ones) has every entry in (0, 1]
and maximum exactly 1. -/
theorem slu_padding_spec (asr_tokens : List (List ℕ)) (h : asr_tokens ≠ []) :
    (∀ t ∈ SLU.pad_tokens asr_tokens,
      t.length = SLU.max_length asr_tokens) ∧
    1 ≤ SLU.max_length asr_tokens ∧
    SLU.asr_tokens_lens asr_tokens = List.replicate asr_tokens.length 1 ∧
    (∀ r ∈ SLU.asr_tokens_lens asr_tokens, 0 < r ∧ r ≤ 1) ∧
    (1 : ℚ) ∈ SLU.asr_tokens_lens asr_tokens := by
  have hone : 1 ≤ SLU.max_length asr_tokens := by
    unfold SLU.max_length
    split <;> omega
  have hle : ∀ t ∈ asr_tokens, t.length ≤ SLU.max_length asr_tokens := by
    intro t ht
    have hm : t.length ≤ (asr_tokens.map List.length).foldr max 0 :=
      SLU.mem_le_foldr_max (List.mem_map_of_mem List.length ht)
    unfold SLU.max_length
    split
    · omega
    · exact hm
  have hlen : ∀ t ∈ SLU.pad_tokens asr_tokens,
      t.length = SLU.max_length asr_tokens := by
    intro t ht
    simp only [SLU.pad_tokens, List.mem_map] at ht
    obtain ⟨u, hu, rfl⟩ := ht
    have := hle u hu
    simp only [List.length_append, List.length_replicate]
    omega
  have hN : asr_tokens.length ≠ 0 := by
    simpa [List.length_eq_zero] using h
  have hmap : SLU.token_lens asr_tokens =
      List.replicate asr_tokens.length (SLU.max_length asr_tokens) := by
    unfold SLU.token_lens
    rw [List.eq_replicate_iff]
    constructor
    · simp [SLU.pad_tokens]
    · intro b hb
      simp only [List.mem_map] at hb
      obtain ⟨t, ht, rfl⟩ := hb
      rw [hlen t ht]
      exact Nat.max_eq_left hone
  have hlens : SLU.asr_tokens_lens asr_tokens =
      List.replicate asr_tokens.length 1 := by
    unfold SLU.asr_tokens_lens
    rw [hmap, SLU.foldr_max_replicate, if_neg hN, List.map_replicate]
    congr 1
    rw [div_self]
    have : SLU.max_length asr_tokens ≠ 0 := by omega
    exact_mod_cast this
  refine ⟨hlen, hone, hlens, ?_, ?_⟩
  · intro r hr
    rw [hlens] at hr
    have := List.eq_of_mem_replicate hr
    subst this
    norm_num
  · rw [hlens]
    exact List.mem_replicate.mpr ⟨hN, rfl⟩

/-- Witness for C7 at the concrete batch [[3], []]. -/
theorem slu_padding_spec_witness :
    (∀ t ∈ SLU.pad_tokens [[3], []], t.length = SLU.max_length [[3], []]) ∧
    1 ≤ SLU.max_length [[3], []] ∧
    SLU.asr_tokens_lens [[3], []] = List.replicate (List.length [[3], []]) 1 ∧
    (∀ r ∈ SLU.asr_tokens_lens [[3], []], 0 < r ∧ r ≤ 1) ∧
    (1 : ℚ) ∈ SLU.asr_tokens_lens [[3], []] :=
  slu_padding_spec [[3], []] (by decide)

/-! ### Stage-machine lemmas (ASR) -/

namespace ASR

theorem accum_nil (ctx : Ctx) (s : State) (stage : Stage) :
    accum ctx s stage [] = s := rfl

theorem accum_cons (ctx : Ctx) (s : State) (stage : Stage) (b : ℕ)
    (bs : List ℕ) :
    accum ctx s stage (b :: bs) =
      accum ctx (objectives_metrics ctx s stage b) stage bs := rfl

theorem accum_train (ctx : Ctx) (batches : List ℕ) :
    ∀ s : State, accum ctx s Stage.TRAIN batches = s := by
  induction batches with
  | nil => intro s; rfl
  | cons b bs ih =>
    intro s
    rw [accum_cons]
    have hob : objectives_metrics ctx s Stage.TRAIN b = s := by
      simp [objectives_metrics]
    rw [hob, ih]

theorem accum_nontrain (ctx : Ctx) {stage : Stage}
    (hs : stage ≠ Stage.TRAIN) (batches : List ℕ) :
    ∀ s : State, accum ctx s stage batches =
      { s with wer_metric := s.wer_metric ++ stageRecords ctx batches,
               cer_metric := s.cer_metric ++ stageRecords ctx batches } := by
  induction batches with
  | nil => intro s; simp [accum_nil, stageRecords]
  | cons b bs ih =>
    intro s
    rw [accum_cons, ih]
    simp [objectives_metrics, hs, stageRecords, List.append_assoc]

theorem on_stage_start_train (s : State) :
    on_stage_start s Stage.TRAIN = s := rfl

theorem on_stage_start_valid (s : State) :
    on_stage_start s Stage.VALID = { s with cer_metric := [], wer_metric := [] } :=
  rfl

theorem on_stage_start_test (s : State) :
    on_stage_start s Stage.TEST = { s with cer_metric := [], wer_metric := [] } :=
  rfl

theorem run_stage_train (ctx : Ctx) (s : State) (batches : List ℕ) :
    run_stage ctx s Stage.TRAIN batches =
      ({ s with train_stats :=
          (some ⟨avg (batches.map ctx.lossOf), none, none⟩) }, []) := by
  unfold run_stage
  rw [on_stage_start_train, accum_train]
  rfl

theorem run_stage_valid (ctx : Ctx) (s : State) (batches : List ℕ) :
    run_stage ctx s Stage.VALID batches =
      ({ s with wer_metric := stageRecords ctx batches,
                cer_metric := stageRecords ctx batches,
                lr := (ctx.lr_annealing (metricValue ctx batches)).2 },
       [Action.anneal (metricValue ctx batches),
        Action.updateLR (ctx.lr_annealing (metricValue ctx batches)).2,
        Action.logValid s.train_stats
          ⟨avg (batches.map ctx.lossOf),
           some (ctx.summarizeCER error_rate (stageRecords ctx batches)),
           some (ctx.summarizeWER error_rate (stageRecords ctx batches))⟩,
        Action.saveCkpt ctx.metric (metricValue ctx batches) [ctx.metric]]) := by
  unfold run_stage
  rw [on_stage_start_valid, accum_nontrain ctx (by decide)]
  simp [on_stage_end, metricValue]

theorem run_stage_test (ctx : Ctx) (s : State) (batches : List ℕ) :
    run_stage ctx s Stage.TEST batches =
      ({ s with wer_metric := stageRecords ctx batches,
                cer_metric := stageRecords ctx batches },
       [Action.logTest
          ⟨avg (batches.map ctx.lossOf),
           some (ctx.summarizeCER error_rate (stageRecords ctx batches)),
           some (ctx.summarizeWER error_rate (stageRecords ctx batches))⟩,
        Action.writeWER (stageRecords ctx batches)]) := by
  unfold run_stage
  rw [on_stage_start_test, accum_nontrain ctx (by decide)]
  simp [on_stage_end]

end ASR

/-! ### Stage-machine lemmas (SLU) -/

namespace SLU

theorem slu_accum_nil (ctx : Ctx) (s : State) (stage : Stage) :
    accum ctx s stage [] = s := rfl

theorem slu_accum_cons (ctx : Ctx) (s : State) (stage : Stage) (b : ℕ)
    (bs : List ℕ) :
    accum ctx s stage (b :: bs) =
      accum ctx (objectives_metrics ctx s stage b) stage bs := rfl

theorem slu_accum_train (ctx : Ctx) (batches : List ℕ) :
    ∀ s : State, accum ctx s Stage.TRAIN batches = s := by
  induction batches with
  | nil => intro s; rfl
  | cons b bs ih =>
    intro s
    rw [slu_accum_cons]
    have hob : objectives_metrics ctx s Stage.TRAIN b = s := by
      simp [objectives_metrics]
    rw [hob, ih]

theorem slu_accum_nontrain (ctx : Ctx) {stage : Stage}
    (hs : stage ≠ Stage.TRAIN) (batches : List ℕ) :
    ∀ s : State, accum ctx s stage batches =
      { s with wer_metric := s.wer_metric ++ stageRecords ctx batches,
               cer_metric := s.cer_metric ++ stageRecords ctx batches } := by
  induction batches with
  | nil => intro s; simp [slu_accum_nil, stageRecords]
  | cons b bs ih =>
    intro s
    rw [slu_accum_cons, ih]
    simp [objectives_metrics, hs, stageRecords, List.append_assoc]

theorem slu_on_stage_start_train (s : State) :
    on_stage_start s Stage.TRAIN = { s with batch_count := 0 } := rfl

theorem slu_on_stage_start_valid (s : State) :
    on_stage_start s Stage.VALID =
      { s with batch_count := 0, cer_metric := [], wer_metric := [] } := rfl

theorem slu_on_stage_start_test (s : State) :
    on_stage_start s Stage.TEST =
      { s with batch_count := 0, cer_metric := [], wer_metric := [] } := rfl

theorem slu_run_stage_train (ctx : Ctx) (s : State) (batches : List ℕ) :
    run_stage ctx s Stage.TRAIN batches =
      ({ s with batch_count := 0, train_stats :=
          (some ⟨avg (batches.map ctx.lossOf), none, none⟩) }, []) := by
  unfold run_stage
  rw [slu_on_stage_start_train, slu_accum_train]
  rfl

theorem slu_run_stage_valid (ctx : Ctx) (s : State) (batches : List ℕ) :
    run_stage ctx s Stage.VALID batches =
      ({ s with batch_count := 0,
                wer_metric := stageRecords ctx batches,
                cer_metric := stageRecords ctx batches,
                lr := (ctx.lr_annealing (werValue ctx batches)).2 },
       [ASR.Action.anneal (werValue ctx batches),
        ASR.Action.updateLR (ctx.lr_annealing (werValue ctx batches)).2,
        ASR.Action.logValid s.train_stats
          ⟨avg (batches.map ctx.lossOf),
           some (ctx.summarizeCER ASR.error_rate (stageRecords ctx batches)),
           some (werValue ctx batches)⟩,
        ASR.Action.saveCkpt ASR.MetricKey.wer (werValue ctx batches)
          [ASR.MetricKey.wer]]) := by
  unfold run_stage
  rw [slu_on_stage_start_valid, slu_accum_nontrain ctx (by decide)]
  simp [on_stage_end, werValue]

theorem slu_run_stage_test (ctx : Ctx) (s : State) (batches : List ℕ) :
    run_stage ctx s Stage.TEST batches =
      ({ s with batch_count := 0,
                wer_metric := stageRecords ctx batches,
                cer_metric := stageRecords ctx batches },
       [ASR.Action.logTest
          ⟨avg (batches.map ctx.lossOf),
           some (ctx.summarizeCER ASR.error_rate (stageRecords ctx batches)),
           some (werValue ctx batches)⟩,
        ASR.Action.writeWER (stageRecords ctx batches)]) := by
  unfold run_stage
  rw [slu_on_stage_start_test, slu_accum_nontrain ctx (by decide)]
  simp [on_stage_end, werValue]

end SLU

/-! ### Claims C3, C4, C5, C10 -/

/-- C3: the learning rate is annealed only at the end of a VALID stage,
never at the end of a TRAIN or TEST stage; the annealing input is the
monitored validation metric computed in that same stage (WER in the SLU
recipe, `hparams["metric_to_optimize"]` in the ASR recipe) and the
optimizer is then updated to the new learning rate. -/
theorem lr_annealing_valid_only (ctx : ASR.Ctx) (s : ASR.State)
    (batches : List ℕ) (ctx2 : SLU.Ctx) (s2 : SLU.State) (batches2 : List ℕ)
    (stage : Stage) :
    ((∃ v, ASR.Action.anneal v ∈ (ASR.run_stage ctx s stage batches).2) ↔
      stage = Stage.VALID) ∧
    ASR.Action.anneal (ASR.metricValue ctx batches) ∈
      (ASR.run_stage ctx s Stage.VALID batches).2 ∧
    ASR.Action.updateLR (ctx.lr_annealing (ASR.metricValue ctx batches)).2 ∈
      (ASR.run_stage ctx s Stage.VALID batches).2 ∧
    (ASR.run_stage ctx s Stage.VALID batches).1.lr =
      (ctx.lr_annealing (ASR.metricValue ctx batches)).2 ∧
    ((∃ v, ASR.Action.anneal v ∈ (SLU.run_stage ctx2 s2 stage batches2).2) ↔
      stage = Stage.VALID) ∧
    ASR.Action.anneal (SLU.werValue ctx2 batches2) ∈
      (SLU.run_stage ctx2 s2 Stage.VALID batches2).2 ∧
    ASR.Action.updateLR (ctx2.lr_annealing (SLU.werValue ctx2 batches2)).2 ∈
      (SLU.run_stage ctx2 s2 Stage.VALID batches2).2 ∧
    (SLU.run_stage ctx2 s2 Stage.VALID batches2).1.lr =
      (ctx2.lr_annealing (SLU.werValue ctx2 batches2)).2 := by
  refine ⟨?_, ?_, ?_, ?_, ?_, ?_, ?_, ?_⟩
  · cases stage
    · simp [ASR.run_stage_train]
    · simp [ASR.run_stage_valid]
    · simp [ASR.run_stage_test]
  · simp [ASR.run_stage_valid]
  · simp [ASR.run_stage_valid]
  · rw [ASR.run_stage_valid]
  · cases stage
    · simp [SLU.slu_run_stage_train]
    · simp [SLU.slu_run_stage_valid]
    · simp [SLU.slu_run_stage_test]
  · simp [SLU.slu_run_stage_valid]
  · simp [SLU.slu_run_stage_valid]
  · rw [SLU.slu_run_stage_valid]

/-- C4: a checkpoint is saved exactly at the end of a VALID stage, with its
metadata keyed by the monitored metric and `min_keys` set to that same key;
no checkpoint call happens at the end of a TRAIN or TEST stage. -/
theorem checkpoint_valid_only (ctx : ASR.Ctx) (s : ASR.State)
    (batches : List ℕ) (ctx2 : SLU.Ctx) (s2 : SLU.State) (batches2 : List ℕ)
    (stage : Stage) :
    ((∃ k v mk, ASR.Action.saveCkpt k v mk ∈
        (ASR.run_stage ctx s stage batches).2) ↔ stage = Stage.VALID) ∧
    ASR.Action.saveCkpt ctx.metric (ASR.metricValue ctx batches)
      [ctx.metric] ∈ (ASR.run_stage ctx s Stage.VALID batches).2 ∧
    ((∃ k v mk, ASR.Action.saveCkpt k v mk ∈
        (SLU.run_stage ctx2 s2 stage batches2).2) ↔ stage = Stage.VALID) ∧
    ASR.Action.saveCkpt ASR.MetricKey.wer (SLU.werValue ctx2 batches2)
      [ASR.MetricKey.wer] ∈ (SLU.run_stage ctx2 s2 Stage.VALID batches2).2 := by
  refine ⟨?_, ?_, ?_, ?_⟩
  · cases stage
    · simp [ASR.run_stage_train]
    · simp [ASR.run_stage_valid]
    · simp [ASR.run_stage_test]
  · simp [ASR.run_stage_valid]
  · cases stage
    · simp [SLU.slu_run_stage_train]
    · simp [SLU.slu_run_stage_valid]
    · simp [SLU.slu_run_stage_test]
  · simp [SLU.slu_run_stage_valid]

/-- C5: for VALID and TEST stages of the ASR recipe, fresh word- and
character-error-rate accumulators are created at stage start, the
per-utterance predicted/target word statistics of every batch of the stage
are appended to them, and at stage end each is summarized (key
"error_rate") into the scalar entering the logged stage statistics; during
a TRAIN stage the accumulators are untouched, so no statistics leak across
stages. -/
theorem metrics_stage_isolation (ctx : ASR.Ctx) (s : ASR.State)
    (batches : List ℕ) :
    (ASR.on_stage_start s Stage.VALID).wer_metric = [] ∧
    (ASR.on_stage_start s Stage.VALID).cer_metric = [] ∧
    (ASR.on_stage_start s Stage.TEST).wer_metric = [] ∧
    (ASR.on_stage_start s Stage.TEST).cer_metric = [] ∧
    (ASR.accum ctx (ASR.on_stage_start s Stage.VALID) Stage.VALID
      batches).wer_metric = ASR.stageRecords ctx batches ∧
    (ASR.accum ctx (ASR.on_stage_start s Stage.VALID) Stage.VALID
      batches).cer_metric = ASR.stageRecords ctx batches ∧
    (ASR.accum ctx (ASR.on_stage_start s Stage.TEST) Stage.TEST
      batches).wer_metric = ASR.stageRecords ctx batches ∧
    (ASR.accum ctx (ASR.on_stage_start s Stage.TEST) Stage.TEST
      batches).cer_metric = ASR.stageRecords ctx batches ∧
    ASR.Action.logValid s.train_stats
      ⟨avg (batches.map ctx.lossOf),
       some (ctx.summarizeCER ASR.error_rate (ASR.stageRecords ctx batches)),
       some (ctx.summarizeWER ASR.error_rate (ASR.stageRecords ctx batches))⟩ ∈
      (ASR.run_stage ctx s Stage.VALID batches).2 ∧
    ASR.Action.logTest
      ⟨avg (batches.map ctx.lossOf),
       some (ctx.summarizeCER ASR.error_rate (ASR.stageRecords ctx batches)),
       some (ctx.summarizeWER ASR.error_rate (ASR.stageRecords ctx batches))⟩ ∈
      (ASR.run_stage ctx s Stage.TEST batches).2 ∧
    (ASR.run_stage ctx s Stage.TRAIN batches).1.wer_metric = s.wer_metric ∧
    (ASR.run_stage ctx s Stage.TRAIN batches).1.cer_metric = s.cer_metric := by
  refine ⟨rfl, rfl, rfl, rfl, ?_, ?_, ?_, ?_, ?_, ?_, ?_, ?_⟩
  · simp [ASR.accum_nontrain ctx (show Stage.VALID ≠ Stage.TRAIN by decide),
      ASR.on_stage_start_valid]
  · simp [ASR.accum_nontrain ctx (show Stage.VALID ≠ Stage.TRAIN by decide),
      ASR.on_stage_start_valid]
  · simp [ASR.accum_nontrain ctx (show Stage.TEST ≠ Stage.TRAIN by decide),
      ASR.on_stage_start_test]
  · simp [ASR.accum_nontrain ctx (show Stage.TEST ≠ Stage.TRAIN by decide),
      ASR.on_stage_start_test]
  · simp [ASR.run_stage_valid]
  · simp [ASR.run_stage_test]
  · rw [ASR.run_stage_train]
  · rw [ASR.run_stage_train]

/-- C10: the average loss of a TRAIN stage is stored at that stage's end
and logged unchanged as the train statistics at the end of the following
VALID stage; the stored train statistics are not modified by the VALID
stage start or by any per-batch computation before the validation-end
logging.  This holds for both the ASR and the SLU recipes. -/
theorem train_stats_frame (ctx : ASR.Ctx) (s : ASR.State) (tb vb : List ℕ)
    (ctx2 : SLU.Ctx) (s2 : SLU.State) (tb2 vb2 : List ℕ) :
    (ASR.run_stage ctx s Stage.TRAIN tb).1.train_stats =
      some ⟨avg (tb.map ctx.lossOf), none, none⟩ ∧
    (ASR.accum ctx
      (ASR.on_stage_start (ASR.run_stage ctx s Stage.TRAIN tb).1 Stage.VALID)
      Stage.VALID vb).train_stats =
      (ASR.run_stage ctx s Stage.TRAIN tb).1.train_stats ∧
    ASR.Action.logValid (some ⟨avg (tb.map ctx.lossOf), none, none⟩)
      ⟨avg (vb.map ctx.lossOf),
       some (ctx.summarizeCER ASR.error_rate (ASR.stageRecords ctx vb)),
       some (ctx.summarizeWER ASR.error_rate (ASR.stageRecords ctx vb))⟩ ∈
      (ASR.run_stage ctx (ASR.run_stage ctx s Stage.TRAIN tb).1 Stage.VALID
        vb).2 ∧
    (SLU.run_stage ctx2 s2 Stage.TRAIN tb2).1.train_stats =
      some ⟨avg (tb2.map ctx2.lossOf), none, none⟩ ∧
    (SLU.accum ctx2
      (SLU.on_stage_start (SLU.run_stage ctx2 s2 Stage.TRAIN tb2).1
        Stage.VALID) Stage.VALID vb2).train_stats =
      (SLU.run_stage ctx2 s2 Stage.TRAIN tb2).1.train_stats ∧
    ASR.Action.logValid (some ⟨avg (tb2.map ctx2.lossOf), none, none⟩)
      ⟨avg (vb2.map ctx2.lossOf),
       some (ctx2.summarizeCER ASR.error_rate (SLU.stageRecords ctx2 vb2)),
       some (ctx2.summarizeWER ASR.error_rate (SLU.stageRecords ctx2 vb2))⟩ ∈
      (SLU.run_stage ctx2 (SLU.run_stage ctx2 s2 Stage.TRAIN tb2).1
        Stage.VALID vb2).2 := by
  refine ⟨?_, ?_, ?_, ?_, ?_, ?_⟩
  · rw [ASR.run_stage_train]
  · rw [ASR.accum_nontrain ctx (show Stage.VALID ≠ Stage.TRAIN by decide),
      ASR.on_stage_start_valid]
  · rw [ASR.run_stage_train]
    simp [ASR.run_stage_valid]
  · rw [SLU.slu_run_stage_train]
  · rw [SLU.slu_accum_nontrain ctx2 (show Stage.VALID ≠ Stage.TRAIN by decide),
      SLU.slu_on_stage_start_valid]
  · rw [SLU.slu_run_stage_train]
    simp [SLU.slu_run_stage_valid, SLU.werValue]
